import Mathlib

/-!
Shallow embedding of `GoRogue.Docs/xref_stripper.py`.

Text is modelled as `List Char`.  The two Python regexes

  `<\s*?see\s*?cref\s*?=\s*?"(SadRogue\..+?)"\s*?\/\s*?>`
  `<\s*?see\s*?cref\s*?=\s*?"(Troschuetz\..+?)"\s*?\/\s*?>`

differ only in the literal prefix inside the capture group, so they are
embedded as one parameterised matcher `matchTagAt pre`.  Every `\s*?` run is
immediately followed by a non-whitespace literal, so the lazy whitespace run
is uniquely determined (skip the maximal whitespace run, then require the
literal); the only genuinely lazy piece is `.+?`, embedded by `scanGroup`,
which extends the group one character at a time and stops at the first
position where the closing `"\s*?\/\s*?>` succeeds — exactly the backtracking
behaviour of the Python engine.  `re.sub` scans left to right, replacing each
leftmost non-overlapping match by `convert_to_match` (the first capture
group) and resuming after the match; `pySub` embeds this, using the input
length as structural fuel (each step consumes at least one character, so the
fuel never runs out on a nonempty buffer).
-/

namespace XrefStripper

/-- Characters matched by Python's `\s` class for `str` patterns:
ASCII whitespace plus the Unicode whitespace characters. -/
def pyIsSpace (c : Char) : Bool :=
  c == ' ' || c == '\t' || c == '\n' || c == '\r' || c == '\x0b' || c == '\x0c' ||
  c == '\x1c' || c == '\x1d' || c == '\x1e' || c == '\x1f' || c == '\x85' || c == '\xa0' ||
  c == ' ' || c == ' ' || c == ' ' || c == ' ' || c == ' ' ||
  c == ' ' || c == ' ' || c == ' ' || c == ' ' || c == ' ' ||
  c == ' ' || c == ' ' || c == ' ' || c == ' ' || c == ' ' ||
  c == ' ' || c == '　'

/-- Skip a maximal run of `\s` characters.  Because every `\s*?` in the
patterns is followed by a non-whitespace literal, the lazily matched run is
exactly this maximal run. -/
def dropSpaces : List Char → List Char
  | [] => []
  | c :: cs => if pyIsSpace c then dropSpaces cs else c :: cs

/-- Match a literal character sequence at the head of the input, returning
the remainder. -/
def stripLiteral : List Char → List Char → Option (List Char)
  | [], s => some s
  | _ :: _, [] => none
  | l :: ls, c :: cs => if c = l then stripLiteral ls cs else none

/-- The closing `\s*?\/\s*?>` of the tag pattern, after the closing quote:
whitespace, `/`, whitespace, `>`.  Returns the text after the `>`. -/
def tailClose (s : List Char) : Option (List Char) :=
  (stripLiteral ['/'] (dropSpaces s)).bind fun r => stripLiteral ['>'] (dropSpaces r)

/-- Can the group stop right here?  It can when the next character is the
closing `"` and the rest of the tag pattern follows. -/
def quoteStop : List Char → Option (List Char)
  | [] => none
  | c :: r => if c = '"' then tailClose r else none

/-- The lazy `.+?` of the capture group followed by `"\s*?\/\s*?>`:
consume at least one non-newline character, then after each character stop at
the first position where `quoteStop` succeeds (lazy = shortest match first);
otherwise keep consuming (`.` matches `"` and `/` too, only not `\n`).
Returns the group characters after the fixed prefix and the text after the
whole tag. -/
def scanGroup : List Char → Option (List Char × List Char)
  | [] => none
  | c :: cs =>
    if c = '\n' then none
    else
      match quoteStop cs with
      | some rem => some ([c], rem)
      | none =>
        match scanGroup cs with
        | some gr => some (c :: gr.1, gr.2)
        | none => none

/-- Literal `see`. -/
def seeL : List Char := ['s', 'e', 'e']

/-- Literal `cref`. -/
def crefL : List Char := ['c', 'r', 'e', 'f']

/-- Capture-group prefix of the first regex: `SadRogue.` (the regex source
`SadRogue\.`). -/
def sadPre : List Char := ['S', 'a', 'd', 'R', 'o', 'g', 'u', 'e', '.']

/-- Capture-group prefix of the second regex: `Troschuetz.` (the regex source
`Troschuetz\.`). -/
def troPre : List Char := ['T', 'r', 'o', 's', 'c', 'h', 'u', 'e', 't', 'z', '.']

/-- The ordered list `CREF_REGEXES`, represented by the capture-group prefix
that distinguishes the two patterns. -/
def CREF_REGEXES : List (List Char) := [sadPre, troPre]

/-- Try to match `<\s*?see\s*?cref\s*?=\s*?"(pre .+?)"\s*?\/\s*?>` anchored at
the start of `s`.  On success returns (capture group 1, text after the
match). -/
def matchTagAt (pre : List Char) (s : List Char) : Option (List Char × List Char) :=
  match s with
  | [] => none
  | c :: s1 =>
    if c = '<' then
      (stripLiteral seeL (dropSpaces s1)).bind fun s2 =>
      (stripLiteral crefL (dropSpaces s2)).bind fun s3 =>
      (stripLiteral ['='] (dropSpaces s3)).bind fun s4 =>
      (stripLiteral ('"' :: pre) (dropSpaces s4)).bind fun s5 =>
      (scanGroup s5).map fun gr => (pre ++ gr.1, gr.2)
    else none

/-- `convert_to_match`: replace a match by its first capture group. -/
def convert_to_match (gr : List Char × List Char) : List Char := gr.1

/-- One `re.sub` pass, fuelled: scan left to right, at each position try the
anchored match; on success emit the capture group and resume after the match,
otherwise emit the character and advance one position.  Each step consumes at
least one input character, so fuel `s.length` (see `pySub`) never runs out. -/
def subAuxF (pre : List Char) : Nat → List Char → List Char
  | 0, s => s
  | f + 1, s =>
    match s with
    | [] => []
    | c :: cs =>
      match matchTagAt pre (c :: cs) with
      | some gr => convert_to_match gr ++ subAuxF pre f gr.2
      | none => c :: subAuxF pre f cs

/-- `re.sub(regex, convert_to_match, s)` for the regex with capture prefix
`pre`. -/
def pySub (pre : List Char) (s : List Char) : List Char :=
  subAuxF pre s.length s

/-- The loop `for regex in CREF_REGEXES: file_data = re.sub(regex,
convert_to_match, file_data)`: the whole rewriting done to one file's
content. -/
def rewrite (s : List Char) : List Char :=
  CREF_REGEXES.foldl (fun t pre => pySub pre t) s

/-- `confirm_continue_prompt`: `resp in ('y', 'Y')` where `resp` is the line
read from the user. -/
def confirm_continue_prompt (resp : List Char) : Bool :=
  resp == ['y'] || resp == ['Y']

/-- One file of the modelled filesystem: path and text content (the script
decodes the bytes as UTF-8 on read and re-encodes on write, so content is
modelled as text). -/
structure FileEntry where
  path : List Char
  content : List Char
  deriving DecidableEq

/-- The `.cs` suffix test `file_path.endswith('.cs')`. -/
def endsWithCs (p : List Char) : Bool :=
  List.isSuffixOf ['.', 'c', 's'] p

/-- `main`, modelled over an explicit filesystem (the list of files produced
by `os.walk`, order irrelevant to the result) and the user's response to the
prompt.  Returns the filesystem after the run together with the list of
paths of files that were opened (each such file is read, rewritten and
written back).  If the prompt is declined, nothing is opened or changed. -/
def main (resp : List Char) (fs : List FileEntry) : List FileEntry × List (List Char) :=
  if confirm_continue_prompt resp then
    (fs.map fun f => if endsWithCs f.path then ⟨f.path, rewrite f.content⟩ else f,
     (fs.filter fun f => endsWithCs f.path).map fun f => f.path)
  else
    (fs, [])

/-- Decidable scan: `true` iff no suffix of `s` has an anchored match of the
pattern with prefix `pre`, i.e. iff no substring of `s` matches that
pattern. -/
def noMatchAnywhere (pre : List Char) : List Char → Bool
  | [] => true
  | c :: cs => (matchTagAt pre (c :: cs)).isNone && noMatchAnywhere pre cs

/-- A well-formed tag text `< w1 see w2 cref w3 = w4 " qual " w5 / w6 >`;
the `wi` stand for the whitespace runs the patterns allow. -/
def mkTag (w1 w2 w3 w4 w5 w6 qual : List Char) : List Char :=
  '<' :: (w1 ++ (seeL ++ (w2 ++ (crefL ++ (w3 ++ ('=' ::
    (w4 ++ ('"' :: (qual ++ ('"' :: (w5 ++ ('/' :: (w6 ++ ['>'])))))))))))))

theorem stripLiteral_eq_some {l s r : List Char} :
    stripLiteral l s = some r ↔ s = l ++ r := by
  induction l generalizing s with
  | nil => simp [stripLiteral]
  | cons x ls ih =>
    cases s with
    | nil => simp [stripLiteral]
    | cons c cs =>
      by_cases h : c = x
      · subst h
        simp [stripLiteral, ih]
      · simp [stripLiteral, h]

theorem dropSpaces_suffix (s : List Char) : dropSpaces s <:+ s := by
  induction s with
  | nil => exact List.suffix_refl _
  | cons c cs ih =>
    by_cases h : pyIsSpace c
    · rw [dropSpaces, if_pos h]
      exact ih.trans (List.suffix_cons c cs)
    · rw [dropSpaces, if_neg h]

theorem dropSpaces_length (s : List Char) : (dropSpaces s).length ≤ s.length :=
  (dropSpaces_suffix s).length_le

theorem dropSpaces_append {w : List Char} (hw : ∀ c ∈ w, pyIsSpace c = true) (s : List Char) :
    dropSpaces (w ++ s) = dropSpaces s := by
  induction w with
  | nil => rfl
  | cons c cs ih =>
    have hc : pyIsSpace c = true := hw c (List.mem_cons_self c cs)
    rw [List.cons_append, dropSpaces, if_pos hc]
    exact ih fun d hd => hw d (List.mem_cons_of_mem c hd)

theorem dropSpaces_cons_of_not {c : Char} (h : pyIsSpace c = false) (s : List Char) :
    dropSpaces (c :: s) = c :: s := by
  rw [dropSpaces, if_neg]
  simp [h]

theorem tailClose_suffix {s r : List Char} (h : tailClose s = some r) : r <:+ s := by
  rw [tailClose, Option.bind_eq_some] at h
  obtain ⟨r1, h1, h2⟩ := h
  have e1 := stripLiteral_eq_some.mp h1
  have e2 := stripLiteral_eq_some.mp h2
  have f1 : (['/'] ++ r1) <:+ s := e1 ▸ dropSpaces_suffix s
  have f2 : (['>'] ++ r) <:+ r1 := e2 ▸ dropSpaces_suffix r1
  exact ((List.suffix_append ['>'] r).trans f2).trans ((List.suffix_append ['/'] r1).trans f1)

theorem quoteStop_eq_some {cs rem : List Char} (h : quoteStop cs = some rem) :
    ∃ r, cs = '"' :: r ∧ tailClose r = some rem := by
  cases cs with
  | nil => cases h
  | cons c r =>
    rw [quoteStop] at h
    by_cases hc : c = '"'
    · subst hc
      rw [if_pos rfl] at h
      exact ⟨r, rfl, h⟩
    · rw [if_neg hc] at h
      cases h

theorem scanGroup_length {s : List Char} {gr : List Char × List Char}
    (h : scanGroup s = some gr) : gr.1.length + gr.2.length < s.length := by
  induction s generalizing gr with
  | nil => cases h
  | cons c cs ih =>
    rw [scanGroup] at h
    by_cases hn : c = '\n'
    · rw [if_pos hn] at h; cases h
    · rw [if_neg hn] at h
      cases hq : quoteStop cs with
      | some rem =>
        rw [hq] at h
        cases h
        obtain ⟨r, hr, htc⟩ := quoteStop_eq_some hq
        have hle := (tailClose_suffix htc).length_le
        subst hr
        simp only [List.length_cons, List.length_nil]
        omega
      | none =>
        rw [hq] at h
        cases hg : scanGroup cs with
        | none => rw [hg] at h; cases h
        | some gr' =>
          rw [hg] at h
          cases h
          have := ih hg
          simp only [List.length_cons]
          omega

theorem matchTagAt_eq_some {pre s : List Char} {gr : List Char × List Char}
    (h : matchTagAt pre s = some gr) :
    ∃ s1 s2 s3 s4 s5 g,
      s = '<' :: s1 ∧
      stripLiteral seeL (dropSpaces s1) = some s2 ∧
      stripLiteral crefL (dropSpaces s2) = some s3 ∧
      stripLiteral ['='] (dropSpaces s3) = some s4 ∧
      stripLiteral ('"' :: pre) (dropSpaces s4) = some s5 ∧
      scanGroup s5 = some g ∧ gr = (pre ++ g.1, g.2) := by
  cases s with
  | nil => cases h
  | cons c s1 =>
    rw [matchTagAt] at h
    by_cases hc : c = '<'
    · subst hc
      rw [if_pos rfl] at h
      simp only [Option.bind_eq_some, Option.map_eq_some'] at h
      obtain ⟨s2, h2, s3, h3, s4, h4, s5, h5, g, hg, hgr⟩ := h
      exact ⟨s1, s2, s3, s4, s5, g, rfl, h2, h3, h4, h5, hg, hgr.symm⟩
    · rw [if_neg hc] at h
      cases h

theorem matchTagAt_length {pre s : List Char} {gr : List Char × List Char}
    (h : matchTagAt pre s = some gr) : gr.1.length + gr.2.length < s.length := by
  obtain ⟨s1, s2, s3, s4, s5, g, rfl, h2, h3, h4, h5, hg, hgr⟩ := matchTagAt_eq_some h
  have e2 := stripLiteral_eq_some.mp h2
  have e3 := stripLiteral_eq_some.mp h3
  have e4 := stripLiteral_eq_some.mp h4
  have e5 := stripLiteral_eq_some.mp h5
  have d1 := dropSpaces_length s1
  have d2 := dropSpaces_length s2
  have d3 := dropSpaces_length s3
  have d4 := dropSpaces_length s4
  rw [e2] at d1
  rw [e3] at d2
  rw [e4] at d3
  rw [e5] at d4
  have hs := scanGroup_length hg
  subst hgr
  simp only [List.length_append, List.length_cons, List.length_nil, seeL, crefL] at *
  omega

theorem subAuxF_id_of_noMatch {pre s : List Char} (h : noMatchAnywhere pre s = true) (f : Nat) :
    subAuxF pre f s = s := by
  induction f generalizing s with
  | zero => rfl
  | succ f ih =>
    cases s with
    | nil => rfl
    | cons c cs =>
      rw [noMatchAnywhere, Bool.and_eq_true, Option.isNone_iff_eq_none] at h
      rw [subAuxF]
      simp only [h.1]
      rw [ih h.2]

theorem pySub_id_of_noMatch {pre s : List Char} (h : noMatchAnywhere pre s = true) :
    pySub pre s = s :=
  subAuxF_id_of_noMatch h s.length

theorem subAuxF_length (pre : List Char) (f : Nat) (s : List Char) :
    (subAuxF pre f s).length ≤ s.length := by
  induction f generalizing s with
  | zero => exact Nat.le_refl _
  | succ f ih =>
    cases s with
    | nil => exact Nat.le_refl _
    | cons c cs =>
      rw [subAuxF]
      cases hm : matchTagAt pre (c :: cs) with
      | none =>
        simp only [List.length_cons]
        exact Nat.succ_le_succ (ih cs)
      | some gr =>
        have hl := matchTagAt_length hm
        have h2 := ih gr.2
        simp only [convert_to_match, List.length_append, List.length_cons] at *
        omega

theorem rewrite_def (s : List Char) : rewrite s = pySub troPre (pySub sadPre s) := rfl

theorem stripLiteral_append (l s : List Char) : stripLiteral l (l ++ s) = some s :=
  stripLiteral_eq_some.mpr rfl

theorem subAuxF_nil (pre : List Char) (f : Nat) : subAuxF pre f [] = [] := by
  cases f with
  | zero => rfl
  | succ f => rfl

theorem tailClose_ws {w5 w6 : List Char} (h5 : ∀ c ∈ w5, pyIsSpace c = true)
    (h6 : ∀ c ∈ w6, pyIsSpace c = true) (t : List Char) :
    tailClose (w5 ++ ('/' :: (w6 ++ ('>' :: t)))) = some t := by
  rw [tailClose, dropSpaces_append h5]
  have d1 : dropSpaces ('/' :: (w6 ++ ('>' :: t))) = ['/'] ++ (w6 ++ ('>' :: t)) :=
    dropSpaces_cons_of_not (by decide) _
  rw [d1, stripLiteral_append, Option.some_bind, dropSpaces_append h6]
  have d2 : dropSpaces ('>' :: t) = ['>'] ++ t := dropSpaces_cons_of_not (by decide) _
  rw [d2, stripLiteral_append]

theorem scanGroup_clean {b u r : List Char} (hb : b ≠ [])
    (hbc : ∀ c ∈ b, c ≠ '\n' ∧ c ≠ '"') (ht : tailClose u = some r) :
    scanGroup (b ++ ('"' :: u)) = some (b, r) := by
  induction b with
  | nil => cases hb rfl
  | cons x b ih =>
    cases b with
    | nil =>
      have hx := hbc x (List.mem_cons_self _ _)
      show scanGroup (x :: ('"' :: u)) = some ([x], r)
      rw [scanGroup, if_neg hx.1]
      have hq : quoteStop ('"' :: u) = some r := by
        rw [quoteStop, if_pos rfl]
        exact ht
      simp only [hq]
    | cons y b' =>
      have hx := hbc x (List.mem_cons_self _ _)
      have hy := hbc y (List.mem_cons_of_mem _ (List.mem_cons_self _ _))
      show scanGroup (x :: ((y :: b') ++ ('"' :: u))) = some (x :: (y :: b'), r)
      rw [scanGroup, if_neg hx.1]
      have hq : quoteStop ((y :: b') ++ ('"' :: u)) = none := by
        show quoteStop (y :: (b' ++ ('"' :: u))) = none
        rw [quoteStop, if_neg hy.2]
      have hrec := ih (List.cons_ne_nil y b') fun c hc => hbc c (List.mem_cons_of_mem _ hc)
      simp only [hq, hrec]

theorem pyIsSpace_ne {c d : Char} (hc : pyIsSpace c = true) (hd : pyIsSpace d = false) :
    c ≠ d := by
  intro e
  rw [e, hd] at hc
  cases hc

theorem prefix_append_split {p a b : List Char} (h : p <+: a ++ b) :
    p <+: a ∨ ∃ t, p = a ++ t ∧ t <+: b := by
  induction a generalizing p with
  | nil => exact Or.inr ⟨p, rfl, h⟩
  | cons x a ih =>
    cases p with
    | nil => exact Or.inl List.nil_prefix
    | cons y p =>
      obtain ⟨hy, hp⟩ := List.cons_prefix_cons.mp h
      subst hy
      rcases ih hp with h1 | ⟨t, rfl, ht⟩
      · exact Or.inl (List.cons_prefix_cons.mpr ⟨rfl, h1⟩)
      · exact Or.inr ⟨t, rfl, ht⟩

theorem matchTagAt_not_lt {pre : List Char} {c : Char} (hc : c ≠ '<') (cs : List Char) :
    matchTagAt pre (c :: cs) = none := by
  rw [matchTagAt, if_neg hc]

theorem subAuxF_push {pre : List Char} :
    ∀ (u : List Char), (∀ c ∈ u, c ≠ '<') → ∀ (g : Nat) (rest : List Char),
      subAuxF pre (g + u.length) (u ++ rest) = u ++ subAuxF pre g rest := by
  intro u
  induction u with
  | nil => intro _ g rest; rfl
  | cons c u ih =>
    intro hu g rest
    have hm : matchTagAt pre (c :: (u ++ rest)) = none :=
      matchTagAt_not_lt (hu c (List.mem_cons_self _ _)) _
    show subAuxF pre ((g + u.length) + 1) (c :: (u ++ rest)) = c :: (u ++ subAuxF pre g rest)
    rw [subAuxF]
    simp only [hm]
    rw [ih (fun d hd => hu d (List.mem_cons_of_mem _ hd)) g rest]

theorem pySub_push {pre u : List Char} (hu : ∀ c ∈ u, c ≠ '<') (rest : List Char) :
    pySub pre (u ++ rest) = u ++ pySub pre rest := by
  rw [pySub, List.length_append, Nat.add_comm u.length rest.length]
  exact subAuxF_push u hu rest.length rest

theorem subAuxF_fuel_irrel (pre : List Char) :
    ∀ (f g : Nat) (s : List Char), s.length ≤ f → s.length ≤ g →
      subAuxF pre f s = subAuxF pre g s := by
  intro f
  induction f with
  | zero =>
    intro g s hf hg
    cases s with
    | nil => rw [subAuxF_nil, subAuxF_nil]
    | cons c cs =>
      rw [List.length_cons] at hf
      exact absurd hf (by omega)
  | succ f ih =>
    intro g s hf hg
    cases s with
    | nil => rw [subAuxF_nil, subAuxF_nil]
    | cons c cs =>
      cases g with
      | zero =>
        rw [List.length_cons] at hg
        exact absurd hg (by omega)
      | succ g =>
        rw [subAuxF, subAuxF]
        cases hm : matchTagAt pre (c :: cs) with
        | some gr =>
          simp only [hm]
          have hlen := matchTagAt_length hm
          rw [List.length_cons] at hf hg hlen
          congr 1
          exact ih g gr.2 (by omega) (by omega)
        | none =>
          simp only [hm]
          rw [List.length_cons] at hf hg
          congr 1
          exact ih g cs (by omega) (by omega)

theorem mkTag_append (w1 w2 w3 w4 w5 w6 qual v : List Char) :
    mkTag w1 w2 w3 w4 w5 w6 qual ++ v =
      '<' :: (w1 ++ (seeL ++ (w2 ++ (crefL ++ (w3 ++ ('=' :: (w4 ++ ('"' ::
        (qual ++ ('"' :: (w5 ++ ('/' :: (w6 ++ ('>' :: v)))))))))))))) := by
  simp [mkTag, List.append_assoc]

theorem matchTagAt_parts {pre w1 w2 w3 w4 w5 w6 b : List Char} (v : List Char)
    (h1 : ∀ c ∈ w1, pyIsSpace c = true) (h2 : ∀ c ∈ w2, pyIsSpace c = true)
    (h3 : ∀ c ∈ w3, pyIsSpace c = true) (h4 : ∀ c ∈ w4, pyIsSpace c = true)
    (h5 : ∀ c ∈ w5, pyIsSpace c = true) (h6 : ∀ c ∈ w6, pyIsSpace c = true)
    (hb : b ≠ []) (hbc : ∀ c ∈ b, c ≠ '\n' ∧ c ≠ '"') :
    matchTagAt pre ('<' :: (w1 ++ (seeL ++ (w2 ++ (crefL ++ (w3 ++ ('=' :: (w4 ++ ('"' ::
        ((pre ++ b) ++ ('"' :: (w5 ++ ('/' :: (w6 ++ ('>' :: v))))))))))))))) =
      some (pre ++ b, v) := by
  rw [matchTagAt, if_pos rfl, dropSpaces_append h1]
  have d1 : dropSpaces (seeL ++ (w2 ++ (crefL ++ (w3 ++ ('=' :: (w4 ++ ('"' ::
      ((pre ++ b) ++ ('"' :: (w5 ++ ('/' :: (w6 ++ ('>' :: v))))))))))))) =
      seeL ++ (w2 ++ (crefL ++ (w3 ++ ('=' :: (w4 ++ ('"' ::
      ((pre ++ b) ++ ('"' :: (w5 ++ ('/' :: (w6 ++ ('>' :: v)))))))))))) :=
    dropSpaces_cons_of_not (by decide) _
  rw [d1, stripLiteral_append, Option.some_bind, dropSpaces_append h2]
  have d2 : dropSpaces (crefL ++ (w3 ++ ('=' :: (w4 ++ ('"' ::
      ((pre ++ b) ++ ('"' :: (w5 ++ ('/' :: (w6 ++ ('>' :: v))))))))))) =
      crefL ++ (w3 ++ ('=' :: (w4 ++ ('"' ::
      ((pre ++ b) ++ ('"' :: (w5 ++ ('/' :: (w6 ++ ('>' :: v)))))))))) :=
    dropSpaces_cons_of_not (by decide) _
  rw [d2, stripLiteral_append, Option.some_bind, dropSpaces_append h3]
  have d3 : dropSpaces ('=' :: (w4 ++ ('"' ::
      ((pre ++ b) ++ ('"' :: (w5 ++ ('/' :: (w6 ++ ('>' :: v))))))))) =
      ['='] ++ (w4 ++ ('"' ::
      ((pre ++ b) ++ ('"' :: (w5 ++ ('/' :: (w6 ++ ('>' :: v)))))))) :=
    dropSpaces_cons_of_not (by decide) _
  rw [d3, stripLiteral_append, Option.some_bind, dropSpaces_append h4]
  have d4 : dropSpaces ('"' :: ((pre ++ b) ++ ('"' :: (w5 ++ ('/' :: (w6 ++ ('>' :: v))))))) =
      ('"' :: pre) ++ (b ++ ('"' :: (w5 ++ ('/' :: (w6 ++ ('>' :: v)))))) := by
    have hd := dropSpaces_cons_of_not (show pyIsSpace '"' = false from by decide)
      ((pre ++ b) ++ ('"' :: (w5 ++ ('/' :: (w6 ++ ('>' :: v))))))
    rw [hd]
    simp [List.append_assoc]
  rw [d4, stripLiteral_append, Option.some_bind]
  have hsc : scanGroup (b ++ ('"' :: (w5 ++ ('/' :: (w6 ++ ('>' :: v)))))) = some (b, v) :=
    scanGroup_clean hb hbc (tailClose_ws h5 h6 v)
  rw [hsc, Option.map_some']

theorem pre_not_prefix_q {pre q B : List Char} (hpre : ¬ pre <+: q) (hpq : '"' ∉ pre) :
    ¬ pre <+: (q ++ ('"' :: B)) := by
  intro hT
  rcases prefix_append_split hT with h1 | ⟨t, hpt, ht⟩
  · exact hpre h1
  · cases t with
    | nil =>
      rw [List.append_nil] at hpt
      exact hpre (hpt ▸ List.prefix_refl q)
    | cons z t' =>
      have hz : z = '"' := (List.cons_prefix_cons.mp ht).1
      refine hpq ?_
      rw [hpt, hz]
      exact List.mem_append_right q (List.mem_cons_self _ _)

theorem matchTagAt_parts_none {pre w1 w2 w3 w4 w5 w6 q : List Char} (v : List Char)
    (h1 : ∀ c ∈ w1, pyIsSpace c = true) (h2 : ∀ c ∈ w2, pyIsSpace c = true)
    (h3 : ∀ c ∈ w3, pyIsSpace c = true) (h4 : ∀ c ∈ w4, pyIsSpace c = true)
    (hpre : ¬ pre <+: q) (hpq : '"' ∉ pre) :
    matchTagAt pre ('<' :: (w1 ++ (seeL ++ (w2 ++ (crefL ++ (w3 ++ ('=' :: (w4 ++ ('"' ::
        (q ++ ('"' :: (w5 ++ ('/' :: (w6 ++ ('>' :: v))))))))))))))) = none := by
  rw [matchTagAt, if_pos rfl, dropSpaces_append h1]
  have d1 : dropSpaces (seeL ++ (w2 ++ (crefL ++ (w3 ++ ('=' :: (w4 ++ ('"' ::
      (q ++ ('"' :: (w5 ++ ('/' :: (w6 ++ ('>' :: v))))))))))))) =
      seeL ++ (w2 ++ (crefL ++ (w3 ++ ('=' :: (w4 ++ ('"' ::
      (q ++ ('"' :: (w5 ++ ('/' :: (w6 ++ ('>' :: v)))))))))))) :=
    dropSpaces_cons_of_not (by decide) _
  rw [d1, stripLiteral_append, Option.some_bind, dropSpaces_append h2]
  have d2 : dropSpaces (crefL ++ (w3 ++ ('=' :: (w4 ++ ('"' ::
      (q ++ ('"' :: (w5 ++ ('/' :: (w6 ++ ('>' :: v))))))))))) =
      crefL ++ (w3 ++ ('=' :: (w4 ++ ('"' ::
      (q ++ ('"' :: (w5 ++ ('/' :: (w6 ++ ('>' :: v)))))))))) :=
    dropSpaces_cons_of_not (by decide) _
  rw [d2, stripLiteral_append, Option.some_bind, dropSpaces_append h3]
  have d3 : dropSpaces ('=' :: (w4 ++ ('"' ::
      (q ++ ('"' :: (w5 ++ ('/' :: (w6 ++ ('>' :: v))))))))) =
      ['='] ++ (w4 ++ ('"' ::
      (q ++ ('"' :: (w5 ++ ('/' :: (w6 ++ ('>' :: v)))))))) :=
    dropSpaces_cons_of_not (by decide) _
  rw [d3, stripLiteral_append, Option.some_bind, dropSpaces_append h4]
  have d4 : dropSpaces ('"' :: (q ++ ('"' :: (w5 ++ ('/' :: (w6 ++ ('>' :: v))))))) =
      '"' :: (q ++ ('"' :: (w5 ++ ('/' :: (w6 ++ ('>' :: v)))))) :=
    dropSpaces_cons_of_not (by decide) _
  rw [d4]
  have hnone : stripLiteral ('"' :: pre)
      ('"' :: (q ++ ('"' :: (w5 ++ ('/' :: (w6 ++ ('>' :: v))))))) = none := by
    cases hsome : stripLiteral ('"' :: pre)
        ('"' :: (q ++ ('"' :: (w5 ++ ('/' :: (w6 ++ ('>' :: v))))))) with
    | none => rfl
    | some s5 =>
      have he := stripLiteral_eq_some.mp hsome
      rw [List.cons_append] at he
      have heq : q ++ ('"' :: (w5 ++ ('/' :: (w6 ++ ('>' :: v))))) = pre ++ s5 := by
        injection he
      exact absurd ⟨s5, heq.symm⟩ (pre_not_prefix_q hpre hpq)
  rw [hnone]
  rfl

theorem pySub_tag_ctx {pre w1 w2 w3 w4 w5 w6 b : List Char} (v : List Char)
    (h1 : ∀ c ∈ w1, pyIsSpace c = true) (h2 : ∀ c ∈ w2, pyIsSpace c = true)
    (h3 : ∀ c ∈ w3, pyIsSpace c = true) (h4 : ∀ c ∈ w4, pyIsSpace c = true)
    (h5 : ∀ c ∈ w5, pyIsSpace c = true) (h6 : ∀ c ∈ w6, pyIsSpace c = true)
    (hb : b ≠ []) (hbc : ∀ c ∈ b, c ≠ '\n' ∧ c ≠ '"') :
    pySub pre (mkTag w1 w2 w3 w4 w5 w6 (pre ++ b) ++ v) = (pre ++ b) ++ pySub pre v := by
  have hm : matchTagAt pre (mkTag w1 w2 w3 w4 w5 w6 (pre ++ b) ++ v) = some (pre ++ b, v) := by
    rw [mkTag_append]
    exact matchTagAt_parts v h1 h2 h3 h4 h5 h6 hb hbc
  rw [pySub, mkTag, List.cons_append, List.length_cons, subAuxF]
  rw [mkTag, List.cons_append] at hm
  simp only [hm, convert_to_match]
  congr 1
  rw [subAuxF_fuel_irrel pre _ v.length v
    (by rw [List.length_append]; exact Nat.le_add_left _ _) (Nat.le_refl _)]
  rfl

theorem pySub_tag_skip {pre w1 w2 w3 w4 w5 w6 q : List Char} (v : List Char)
    (h1 : ∀ c ∈ w1, pyIsSpace c = true) (h2 : ∀ c ∈ w2, pyIsSpace c = true)
    (h3 : ∀ c ∈ w3, pyIsSpace c = true) (h4 : ∀ c ∈ w4, pyIsSpace c = true)
    (h5 : ∀ c ∈ w5, pyIsSpace c = true) (h6 : ∀ c ∈ w6, pyIsSpace c = true)
    (hpre : ¬ pre <+: q) (hpq : '"' ∉ pre) (hqlt : ∀ c ∈ q, c ≠ '<') :
    pySub pre (mkTag w1 w2 w3 w4 w5 w6 q ++ v) = mkTag w1 w2 w3 w4 w5 w6 q ++ pySub pre v := by
  have hm : matchTagAt pre (mkTag w1 w2 w3 w4 w5 w6 q ++ v) = none := by
    rw [mkTag_append]
    exact matchTagAt_parts_none v h1 h2 h3 h4 hpre hpq
  have hU : ∀ c ∈ w1 ++ (seeL ++ (w2 ++ (crefL ++ (w3 ++ ('=' :: (w4 ++ ('"' ::
      (q ++ ('"' :: (w5 ++ ('/' :: (w6 ++ ['>'])))))))))))), c ≠ '<' := by
    refine List.forall_mem_append.mpr ⟨fun c hc => pyIsSpace_ne (h1 c hc) (by decide), ?_⟩
    refine List.forall_mem_append.mpr ⟨by decide, ?_⟩
    refine List.forall_mem_append.mpr ⟨fun c hc => pyIsSpace_ne (h2 c hc) (by decide), ?_⟩
    refine List.forall_mem_append.mpr ⟨by decide, ?_⟩
    refine List.forall_mem_append.mpr ⟨fun c hc => pyIsSpace_ne (h3 c hc) (by decide), ?_⟩
    refine List.forall_mem_cons.mpr ⟨by decide, ?_⟩
    refine List.forall_mem_append.mpr ⟨fun c hc => pyIsSpace_ne (h4 c hc) (by decide), ?_⟩
    refine List.forall_mem_cons.mpr ⟨by decide, ?_⟩
    refine List.forall_mem_append.mpr ⟨hqlt, ?_⟩
    refine List.forall_mem_cons.mpr ⟨by decide, ?_⟩
    refine List.forall_mem_append.mpr ⟨fun c hc => pyIsSpace_ne (h5 c hc) (by decide), ?_⟩
    refine List.forall_mem_cons.mpr ⟨by decide, ?_⟩
    refine List.forall_mem_append.mpr ⟨fun c hc => pyIsSpace_ne (h6 c hc) (by decide), ?_⟩
    decide
  rw [pySub, mkTag, List.cons_append, List.length_cons, subAuxF]
  rw [mkTag, List.cons_append] at hm
  simp only [hm]
  rw [List.length_append, Nat.add_comm]
  rw [subAuxF_push _ hU v.length v]
  rfl

theorem pySub_length (pre s : List Char) : (pySub pre s).length ≤ s.length :=
  subAuxF_length pre s.length s

/-- C1 counterexample: the claim as stated — every well-formed allow-listed
tag occurring in the input text is replaced with exactly its quoted
qualifier — is false.  The input `<see cref="SadRogue.<see
cref="SadRogue.B"/>q"/>` contains the well-formed tag `<see
cref="SadRogue.B"/>` (first conjunct), but the output is not the context
with that tag replaced by `SadRogue.B` (the leftmost lazy match starts at
the first `<` and swallows the inner tag instead). -/
theorem allowlisted_tag_in_context_cex :
    (mkTag [] [' '] [] [] [] [] (sadPre ++ ['B'])) <:+:
        (("<see cref=\"SadRogue.<see cref=\"SadRogue.B\"/>q\"/>").data) ∧
    ¬ (rewrite (("<see cref=\"SadRogue.<see cref=\"SadRogue.B\"/>q\"/>").data) =
        (("<see cref=\"SadRogue.SadRogue.Bq\"/>").data)) := by
  exact ⟨by decide, by decide⟩

/-- C1 (amended): a well-formed allow-listed tag occurring in the input text
`u ++ tag ++ v` is replaced with exactly its quoted qualifier `SadRogue. ++ b`
— with arbitrary whitespace in all six spots the patterns allow, an arbitrary
following text `v` (processed independently), and an identifier-like body —
provided the text `u` before the tag contains no `<`, so that no earlier,
overlapping match can begin there (the counterexample shows this proviso is
necessary). -/
theorem allowlisted_tag_in_context (u v w1 w2 w3 w4 w5 w6 b : List Char)
    (hu : ∀ c ∈ u, c ≠ '<')
    (h1 : ∀ c ∈ w1, pyIsSpace c = true) (h2 : ∀ c ∈ w2, pyIsSpace c = true)
    (h3 : ∀ c ∈ w3, pyIsSpace c = true) (h4 : ∀ c ∈ w4, pyIsSpace c = true)
    (h5 : ∀ c ∈ w5, pyIsSpace c = true) (h6 : ∀ c ∈ w6, pyIsSpace c = true)
    (hb : b ≠ []) (hbc : ∀ c ∈ b, c ≠ '\n' ∧ c ≠ '"' ∧ c ≠ '<') :
    rewrite (u ++ (mkTag w1 w2 w3 w4 w5 w6 (sadPre ++ b) ++ v)) =
      u ++ ((sadPre ++ b) ++ rewrite v) := by
  have hbc2 : ∀ c ∈ b, c ≠ '\n' ∧ c ≠ '"' := fun c hc => ⟨(hbc c hc).1, (hbc c hc).2.1⟩
  have hqual : ∀ c ∈ sadPre ++ b, c ≠ '<' := by
    refine List.forall_mem_append.mpr ⟨by decide, fun c hc => (hbc c hc).2.2⟩
  rw [rewrite_def]
  rw [pySub_push hu]
  rw [pySub_tag_ctx v h1 h2 h3 h4 h5 h6 hb hbc2]
  rw [pySub_push hu]
  rw [pySub_push hqual]
  rfl

/-- Witness for the amended C1: `See <see cref="SadRogue.Pt" /> end` becomes
`See SadRogue.Pt end`. -/
theorem allowlisted_tag_in_context_witness :
    rewrite ((("See ").data) ++
        (mkTag [] [' '] [] [] [' '] [] (sadPre ++ ['P', 't']) ++ ((" end").data))) =
      (("See ").data) ++ ((sadPre ++ ['P', 't']) ++ rewrite ((" end").data)) :=
  allowlisted_tag_in_context _ _ _ _ _ _ _ _ _ (by decide) (by decide) (by decide)
    (by decide) (by decide) (by decide) (by decide) (by decide) (by decide)

/-- C2 counterexample: the claim as stated — every tag with a
non-allow-listed qualifier is left byte-for-byte unchanged in the output —
is false.  The input `pre <see cref="SadRogue.<see cref="System.String"/>x"/>
post` contains the tag `<see cref="System.String"/>` (first conjunct), but
the output `pre SadRogue.<see cref="System.Stringx"/> post` no longer
contains it anywhere (second conjunct): an enclosing lazy `SadRogue.` match
consumed and destroyed it. -/
theorem foreign_tag_in_context_cex :
    (mkTag [] [' '] [] [] [] [] (("System.String").data)) <:+:
        (("pre <see cref=\"SadRogue.<see cref=\"System.String\"/>x\"/> post").data) ∧
    ¬ ((mkTag [] [' '] [] [] [] [] (("System.String").data)) <:+:
        (rewrite (("pre <see cref=\"SadRogue.<see cref=\"System.String\"/>x\"/> post").data))) := by
  exact ⟨by decide, by decide⟩

/-- C2 (amended): a tag occurring in the input text `u ++ tag ++ v` whose
quoted qualifier begins with neither `SadRogue.` nor `Troschuetz.` (and,
being a qualifier, contains no `<`) is left byte-for-byte in place, with the
arbitrary following text `v` processed independently, provided the text `u`
before the tag contains no `<`, so that no earlier, overlapping match can
begin there (the counterexample shows this proviso is necessary). -/
theorem foreign_tag_in_context (u v w1 w2 w3 w4 w5 w6 q : List Char)
    (hu : ∀ c ∈ u, c ≠ '<')
    (h1 : ∀ c ∈ w1, pyIsSpace c = true) (h2 : ∀ c ∈ w2, pyIsSpace c = true)
    (h3 : ∀ c ∈ w3, pyIsSpace c = true) (h4 : ∀ c ∈ w4, pyIsSpace c = true)
    (h5 : ∀ c ∈ w5, pyIsSpace c = true) (h6 : ∀ c ∈ w6, pyIsSpace c = true)
    (hsad : ¬ sadPre <+: q) (htro : ¬ troPre <+: q) (hqlt : ∀ c ∈ q, c ≠ '<') :
    rewrite (u ++ (mkTag w1 w2 w3 w4 w5 w6 q ++ v)) =
      u ++ (mkTag w1 w2 w3 w4 w5 w6 q ++ rewrite v) := by
  rw [rewrite_def]
  rw [pySub_push hu]
  rw [pySub_tag_skip v h1 h2 h3 h4 h5 h6 hsad (by decide) hqlt]
  rw [pySub_push hu]
  rw [pySub_tag_skip (pySub sadPre v) h1 h2 h3 h4 h5 h6 htro (by decide) hqlt]
  rfl

/-- Witness for the amended C2: `pre <see cref="System.String"/> post` keeps
the `System.String` tag untouched. -/
theorem foreign_tag_in_context_witness :
    rewrite ((("pre ").data) ++
        (mkTag [] [' '] [] [] [] [] (("System.String").data) ++ ((" post").data))) =
      (("pre ").data) ++
        (mkTag [] [' '] [] [] [] [] (("System.String").data) ++ rewrite ((" post").data)) :=
  foreign_tag_in_context _ _ _ _ _ _ _ _ _ (by decide) (by decide) (by decide) (by decide)
    (by decide) (by decide) (by decide) (by decide) (by decide) (by decide)

/-- C3: on a text in which no position starts a match of either pattern
(i.e. no substring matches either allow-listed tag pattern), `rewrite` is the
identity. -/
theorem no_match_identity (s : List Char)
    (hs : noMatchAnywhere sadPre s = true) (ht : noMatchAnywhere troPre s = true) :
    rewrite s = s := by
  rw [rewrite_def, pySub_id_of_noMatch hs, pySub_id_of_noMatch ht]

/-- Witness for C3 on a concrete tag-free text. -/
theorem no_match_identity_witness :
    rewrite (("Hello, docs!").data) = ("Hello, docs!").data :=
  no_match_identity _ (by decide) (by decide)

/-- C4 counterexample: `rewrite` is not idempotent.  On the input
`<see cref="SadRogue.<see cref="SadRogue.B"/>q"/>` the single lazy match
swallows the inner tag, and the replacement text recombines with the
remainder `q"/>` into a fresh matching tag, which a second application then
rewrites again. -/
theorem rewrite_not_idempotent :
    ¬ (rewrite (rewrite (("<see cref=\"SadRogue.<see cref=\"SadRogue.B\"/>q\"/>").data)) =
       rewrite (("<see cref=\"SadRogue.<see cref=\"SadRogue.B\"/>q\"/>").data)) := by
  decide

/-- C4 amended: applying `rewrite` twice yields the same result as applying
it once, provided the first application's output no longer contains a match
of either pattern (which the counterexample shows is not automatic). -/
theorem rewrite_idempotent_of_no_residual_match (s : List Char)
    (hs : noMatchAnywhere sadPre (rewrite s) = true)
    (ht : noMatchAnywhere troPre (rewrite s) = true) :
    rewrite (rewrite s) = rewrite s := by
  show pySub troPre (pySub sadPre (rewrite s)) = rewrite s
  rw [pySub_id_of_noMatch hs, pySub_id_of_noMatch ht]

/-- Witness for the amended C4 on a concrete input containing one tag. -/
theorem rewrite_idempotent_of_no_residual_match_witness :
    rewrite (rewrite (("<see cref=\"SadRogue.A\"/>").data)) =
      rewrite (("<see cref=\"SadRogue.A\"/>").data) :=
  rewrite_idempotent_of_no_residual_match _ (by decide) (by decide)

/-- C5: end-to-end scenario with the space-before-`/>` tag variant. -/
theorem point_scenario :
    rewrite (("See also: <see cref=\"SadRogue.Primitives.Point\" />.").data) =
      ("See also: SadRogue.Primitives.Point.").data := by
  decide

/-- C6: end-to-end scenario: the `Troschuetz.`-prefixed tag is rewritten
while the `System.`-prefixed tag in the same buffer stays untouched. -/
theorem troschuetz_and_system_scenario :
    rewrite (("<see cref=\"Troschuetz.Random.IGenerator\"/> and <see cref=\"System.Int32\"/>").data) =
      ("Troschuetz.Random.IGenerator and <see cref=\"System.Int32\"/>").data := by
  decide

/-- C7: if the confirmation prompt is declined, `main` opens no file and the
filesystem is returned unchanged. -/
theorem declined_prompt_no_effect (resp : List Char) (fs : List FileEntry)
    (h : confirm_continue_prompt resp = false) :
    main resp fs = (fs, []) := by
  simp [main, h]

/-- Witness for C7 with response `n` over a one-file filesystem. -/
theorem declined_prompt_no_effect_witness :
    main ['n'] [⟨("A.cs").data, ("x").data⟩] = ([⟨("A.cs").data, ("x").data⟩], []) :=
  declined_prompt_no_effect _ _ (by decide)

/-- C8: the prompt is accepted exactly on the single-letter responses `y`
and `Y`; every other response (empty, `yes`, ...) is a refusal. -/
theorem confirm_iff_y (resp : List Char) :
    confirm_continue_prompt resp = true ↔ resp = ['y'] ∨ resp = ['Y'] := by
  simp [confirm_continue_prompt]

/-- Witness for C8: `y` is accepted, `yes` is refused. -/
theorem confirm_iff_y_witness :
    confirm_continue_prompt ['y'] = true ∧ confirm_continue_prompt ['y', 'e', 's'] = false := by
  constructor
  · exact (confirm_iff_y _).mpr (Or.inl rfl)
  · cases hc : confirm_continue_prompt ['y', 'e', 's'] with
    | false => rfl
    | true => exact absurd ((confirm_iff_y _).mp hc) (by decide)

/-- C9: `rewrite` never lengthens the text: every substitution replaces a
whole matched tag by its capture group, a strict substring of the match. -/
theorem rewrite_length_le (s : List Char) : (rewrite s).length ≤ s.length := by
  rw [rewrite_def]
  exact (pySub_length troPre _).trans (pySub_length sadPre _)

/-- C10: the `.cs` extension filter is exact and case-sensitive: a file
whose path does not end in the lowercase `.cs` (e.g. `.CS` or `.Cs`) is
never opened and its entry is unchanged by the run. -/
theorem non_cs_file_untouched (resp : List Char) (fs : List FileEntry) (fe : FileEntry)
    (hmem : fe ∈ fs) (hext : endsWithCs fe.path = false) :
    fe ∈ (main resp fs).1 ∧ fe.path ∉ (main resp fs).2 := by
  rw [main]
  by_cases hc : confirm_continue_prompt resp = true
  · rw [if_pos hc]
    constructor
    · refine List.mem_map.mpr ⟨fe, hmem, ?_⟩
      simp [hext]
    · intro hmem2
      simp only [List.mem_map, List.mem_filter] at hmem2
      obtain ⟨g, ⟨hg, hcs⟩, hpath⟩ := hmem2
      rw [hpath] at hcs
      rw [hext] at hcs
      cases hcs
  · rw [if_neg hc]
    exact ⟨hmem, by simp⟩

/-- Witness for C10: a `.CS` file is not opened and survives a confirmed
run unchanged. -/
theorem non_cs_file_untouched_witness :
    (⟨("A.CS").data, ("x").data⟩ : FileEntry) ∈
      (main ['y'] [⟨("A.CS").data, ("x").data⟩]).1 ∧
    (("A.CS").data) ∉ (main ['y'] [⟨("A.CS").data, ("x").data⟩]).2 :=
  non_cs_file_untouched _ _ _ (by decide) (by decide)

end XrefStripper
